import Mathlib

/-!
Verification of the chemicalite similarity-search script (`search.py`).

The script performs an adaptive-threshold Tanimoto similarity search:
`get_similarity` lowers the similarity threshold from 0.7 in steps of 0.1
until the SQL query returns rows, `calc_sim_for_smiles` runs it over a batch
of query molecules on a private in-memory copy of the database, and `main`
chunks the query set and dispatches the chunks over a process pool.

The embedding below models the decimal thresholds and Tanimoto scores as
exact rationals (`mkRat k 10` stands for the decimal literal `0.k`), SQLite
rows as Lean structures, and Python exceptions (TypeError on subscripting
None, fatal sqlite errors) as an explicit `Except` error channel.
-/

namespace ChemSearch

/-- Python-level error outcomes relevant to the script: fatal sqlite errors
(the database or the chemicalite extension cannot be opened, or the expected
table/column/index names are missing) and the runtime errors that
subscripting can raise (`None[0]` raises TypeError, `[][0]` raises
IndexError). -/
inductive PyError where
  | engineUnavailable
  | schemaError
  | typeError
  | indexError
deriving DecidableEq

/-- A row returned by the similarity SELECT in `get_similarity`:
`(main.smi, main.id, t)` where `t` is the Tanimoto similarity. -/
structure Row where
  smi : String
  id : String
  t : ℚ
deriving DecidableEq

/-- A reference molecule stored in the indexed table (`main.smi`, `main.id`;
its fingerprint is abstracted into the similarity function below). -/
structure RefMol where
  smi : String
  id : String
deriving DecidableEq

/-- A worker output row: `res[0] + (mol_id, smi)` — the best-match row
augmented with the originating query's id and smiles. -/
abbrev ResRow := Row × String × String

instance instDecEqExcept {ε : Type u} {α : Type v} [DecidableEq ε] [DecidableEq α] :
    DecidableEq (Except ε α) := fun x y =>
  match x, y with
  | .ok a, .ok b =>
    if h : a = b then isTrue (congrArg Except.ok h)
    else isFalse (fun hc => h (Except.ok.inj hc))
  | .error a, .error b =>
    if h : a = b then isTrue (congrArg Except.error h)
    else isFalse (fun hc => h (Except.error.inj hc))
  | .ok _, .error _ => isFalse (fun hc => Except.noConfusion hc)
  | .error _, .ok _ => isFalse (fun hc => Except.noConfusion hc)

/-- A database connection handle, as used by `get_similarity`:
`con fp mol_field table query threshold limit` models
`con.execute(sql, (query, threshold)).fetchall()` for the similarity SELECT
whose text is built from `fp`, `mol_field`, `table` and the optional
`LIMIT` clause.  It either returns the row list or raises a fatal sqlite
error. -/
abbrev Conn :=
  String → String → String → String → ℚ → Option Nat → Except PyError (List Row)

/-- Models `sqlite3.connect(db_name)` followed by `con.backup(dest)` into an
in-memory database with the chemicalite extension loaded: the worker's
private handle onto the reference collection, keyed by the db file name. -/
abbrev EngineOpener := String → Conn

/-- Insert a row into a list that is ordered by descending similarity. -/
def insertDesc (r : Row) : List Row → List Row
  | [] => [r]
  | x :: xs => if x.t ≤ r.t then r :: x :: xs else x :: insertDesc r xs

/-- Sort rows by descending similarity, modelling `ORDER BY t DESC`. -/
def sortDesc : List Row → List Row
  | [] => []
  | x :: xs => insertDesc x (sortDesc xs)

/-- The result set of the similarity SELECT executed by `get_similarity`,
given a pure model of the reference table: all reference molecules whose
Tanimoto similarity to the query is at least the threshold (the
`rdtree_tanimoto` MATCH restriction), as rows `(smi, id, t)`, ordered by
similarity descending, truncated by the `LIMIT` clause when `limit` is not
None.  `refs` models the rows of the indexed table and `sim` the
`bfp_tanimoto` score between a query smiles and a reference smiles for the
configured fingerprint. -/
def sqlSelect (refs : List RefMol) (sim : String → String → ℚ)
    (query : String) (threshold : ℚ) (limit : Option Nat) : List Row :=
  let sorted := sortDesc
    ((refs.filter fun r => threshold ≤ sim query r.smi).map
      fun r => ⟨r.smi, r.id, sim query r.smi⟩)
  match limit with
  | some l => sorted.take l
  | none => sorted

/-- A connection whose SELECT behaves exactly as `sqlSelect` on a pure
reference table (the schema parameters of the SQL text are already accounted
for by `refs` and `sim`). -/
def mkConn (refs : List RefMol) (sim : String → String → ℚ) : Conn :=
  fun _fp _mol_field _table query threshold limit =>
    .ok (sqlSelect refs sim query threshold limit)

/-- The `while threshold >= 0` loop of `get_similarity`.  The threshold is
`0.k`, modelled exactly as `mkRat k 10`; the source starts at `0.7` and
subtracts `0.1` each round, so `k` runs `7, 6, ..., 0`.  A non-empty result
set is returned immediately (`if res: return res`); when the loop falls
through after the `k = 0` round, Python returns `None`, modelled as
`.ok none`. -/
def get_similarity_go (con : Conn) (fp mol_field table query : String)
    (limit : Option Nat) : Nat → Except PyError (Option (List Row))
  | 0 =>
    match con fp mol_field table query (mkRat 0 10) limit with
    | .error e => .error e
    | .ok res => if res = [] then .ok none else .ok (some res)
  | k + 1 =>
    match con fp mol_field table query (mkRat (k + 1) 10) limit with
    | .error e => .error e
    | .ok res =>
      if res = [] then get_similarity_go con fp mol_field table query limit k
      else .ok (some res)

/-- Models `get_similarity(con, fp, mol_field, table, query, limit=1)`: the adaptive
threshold backoff starting at `0.7`. -/
def get_similarity (con : Conn) (fp mol_field table query : String)
    (limit : Option Nat := some 1) : Except PyError (Option (List Row)) :=
  get_similarity_go con fp mol_field table query limit 7

/-- The `for mol_id, smi in smiles` loop of `calc_sim_for_smiles`: each query
is searched with `limit=1`, and `res = res[0] + (mol_id, smi)` is appended to
`all_res`.  When `get_similarity` returned `None` (no match at any
threshold), `res[0]` raises TypeError; on an empty list it would raise
IndexError (unreachable through `get_similarity`). -/
def calc_loop (con : Conn) (fp mol_field table : String) :
    List (String × String) → Except PyError (List ResRow)
  | [] => .ok []
  | (mol_id, smi) :: rest =>
    match get_similarity con fp mol_field table smi (some 1) with
    | .error e => .error e
    | .ok none => .error .typeError
    | .ok (some []) => .error .indexError
    | .ok (some (r :: _)) =>
      match calc_loop con fp mol_field table rest with
      | .error e => .error e
      | .ok tail => .ok ((r, mol_id, smi) :: tail)

/-- Models `calc_sim_for_smiles(smiles, db_name, fp, mol_field, table)`: open the
private in-memory copy of the database, then run the per-query loop. -/
def calc_sim_for_smiles (opendb : EngineOpener) (smiles : List (String × String))
    (db_name fp mol_field table : String) : Except PyError (List ResRow) :=
  calc_loop (opendb db_name) fp mol_field table smiles

/-- The helper `take(n, iterable)` from the source: `list(islice(iterable, n))`. -/
def take (n : Nat) (l : List α) : List α := List.take n l

/-- The converter `cpu_type(x)` from the source: `max(1, min(int(x), cpu_count()))`,
with `cpu_count` passed explicitly. -/
def cpu_type (cpu_count : Nat) (x : Int) : Nat :=
  (max 1 (min x (cpu_count : Int))).toNat

/-- Fuel-indexed chunking loop: `iter(partial(take, n, it), [])` repeatedly
takes `n` items from the shared iterator until `take` returns the sentinel
`[]`.  Each round with a non-empty chunk consumes at least one element, so
`l.length` rounds of fuel are always enough. -/
def chunkedF (n : Nat) : Nat → List α → List (List α)
  | 0, _ => []
  | fuel + 1, l =>
    if (take n l).isEmpty then [] else take n l :: chunkedF n fuel (l.drop n)

/-- Models `chunked = iter(partial(take, args.ncpu, iter(zip(mol_ids, smiles))), [])`:
the query sequence split into consecutive chunks of size `n` (last chunk
possibly shorter). -/
def chunked (n : Nat) (l : List α) : List (List α) := chunkedF n l.length l

/-- Models `sum(p.map(f, chunks), [])`: `ProcessPoolExecutor.map` yields the chunk
results in the order of its input iterable (submission order), and `sum`
concatenates them in that order; retrieving a chunk result whose worker
raised re-raises that error, so the first (in submission order) failed chunk
aborts the aggregation before any data row is written. -/
def pool_map_sum (f : List (String × String) → Except PyError (List ResRow)) :
    List (List (String × String)) → Except PyError (List ResRow)
  | [] => .ok []
  | c :: cs =>
    match f c with
    | .error e => .error e
    | .ok r =>
      match pool_map_sum f cs with
      | .error e => .error e
      | .ok rest => .ok (r ++ rest)

/-- The configuration surface parsed by `argparse` in `main`.  `ncpu` holds
the raw CLI value; `main` sees it through the `cpu_type` converter. -/
structure Config where
  input_db : String
  input_smiles : String
  output : String
  table : String
  mol_field : String
  fp : String
  threshold : ℚ
  limit : Option Int
  ncpu : Int
deriving DecidableEq

/-- The computational core of `main`: clamp the worker count with
`cpu_type`, chunk the `(Name, smi)` query pairs into groups of `ncpu`,
run `calc_sim_for_smiles` on every chunk through the process pool, and
concatenate the chunk results.  Note that `cfg.threshold` and `cfg.limit`
are parsed but never consulted. -/
def main_run (opendb : EngineOpener) (cpu_count : Nat) (cfg : Config)
    (queries : List (String × String)) : Except PyError (List ResRow) :=
  pool_map_sum
    (fun chunk =>
      calc_sim_for_smiles opendb chunk cfg.input_db cfg.fp cfg.mol_field cfg.table)
    (chunked (cpu_type cpu_count cfg.ncpu) queries)

/-- A reference collection holding a single molecule `CCO` (id `ref1`). -/
def refs1 : List RefMol := [⟨"CCO", "ref1"⟩]

/-- A Tanimoto model under which every query scores exactly 0.55 against
every reference molecule. -/
def sim055 : String → String → ℚ := fun _ _ => mkRat 11 20

def conn1 : Conn := mkConn refs1 sim055

def op1 : EngineOpener := fun _ => conn1

/-- A connection onto an empty reference collection: every SELECT returns
no rows at every threshold. -/
def emptyConn : Conn := mkConn [] sim055

def opEmpty : EngineOpener := fun _ => emptyConn

/-- A connection whose every SELECT raises a fatal engine error. -/
def errConn : Conn := fun _ _ _ _ _ _ => .error .engineUnavailable

def opErr : EngineOpener := fun _ => errConn

def cfg1 : Config :=
  ⟨"chembl.db", "input.smi", "out.txt", "mols", "mol", "morgan", mkRat 7 10, none, 2⟩

def qs4 : List (String × String) :=
  [("m1", "s1"), ("m2", "s2"), ("m3", "s3"), ("m4", "s4")]

def row055 : Row := ⟨"CCO", "ref1", mkRat 11 20⟩

def res4 : List ResRow :=
  [(row055, "m1", "s1"), (row055, "m2", "s2"), (row055, "m3", "s3"), (row055, "m4", "s4")]

def qs3 : List (String × String) := [("a", "x"), ("b", "y"), ("c", "z")]

def res3 : List ResRow :=
  [(row055, "a", "x"), (row055, "b", "y"), (row055, "c", "z")]

def batch2 : List (String × String) := [("m1", "s1"), ("m2", "s2")]

def res2 : List ResRow := [(row055, "m1", "s1"), (row055, "m2", "s2")]

def cfgE : Config :=
  ⟨"chembl.db", "input.smi", "out.txt", "mols", "mol", "morgan", mkRat 7 10, none, 1⟩

theorem insertDesc_ne_nil (r : Row) (l : List Row) : insertDesc r l ≠ [] := by
  cases l with
  | nil => simp [insertDesc]
  | cons x xs => by_cases h : x.t ≤ r.t <;> simp [insertDesc, h]

theorem sortDesc_eq_nil_iff (l : List Row) : sortDesc l = [] ↔ l = [] := by
  cases l with
  | nil => simp [sortDesc]
  | cons x xs => simp [sortDesc, insertDesc_ne_nil]

/-- The SELECT returns no rows exactly when no reference molecule reaches the
threshold (as long as the LIMIT is not the degenerate `LIMIT 0`). -/
theorem sqlSelect_eq_nil_iff (refs : List RefMol) (sim : String → String → ℚ)
    (query : String) (threshold : ℚ) (limit : Option Nat) (hlim : limit ≠ some 0) :
    sqlSelect refs sim query threshold limit = [] ↔
      ∀ r ∈ refs, ¬ threshold ≤ sim query r.smi := by
  cases limit with
  | none =>
    simp [sqlSelect, sortDesc_eq_nil_iff, List.map_eq_nil_iff, List.filter_eq_nil_iff]
  | some m =>
    cases m with
    | zero => exact absurd rfl hlim
    | succ m' =>
      simp [sqlSelect, List.take_eq_nil_iff, sortDesc_eq_nil_iff,
        List.map_eq_nil_iff, List.filter_eq_nil_iff]

/-- Backbone of the adaptive backoff on a pure connection: at every fuel
level `k` (threshold `0.k`), provided some match exists at threshold 0, the
loop returns the result set of the highest band `K ≤ k` at which a match
exists, and every band strictly above `K` is empty. -/
theorem get_similarity_go_spec (refs : List RefMol) (sim : String → String → ℚ)
    (fp mol_field table query : String) (limit : Option Nat) (hlim : limit ≠ some 0)
    (h0 : ∃ r ∈ refs, 0 ≤ sim query r.smi) (k : Nat) :
    ∃ K : Nat, K ≤ k ∧
      get_similarity_go (mkConn refs sim) fp mol_field table query limit k =
        .ok (some (sqlSelect refs sim query (mkRat K 10) limit)) ∧
      (∃ r ∈ refs, mkRat K 10 ≤ sim query r.smi) ∧
      (∀ j : Nat, j ≤ k → K < j → ∀ r ∈ refs, sim query r.smi < mkRat j 10) := by
  induction k with
  | zero =>
    have hmem : ∃ r ∈ refs, mkRat (0 : Nat) 10 ≤ sim query r.smi := by
      obtain ⟨r, hr, h0r⟩ := h0
      refine ⟨r, hr, ?_⟩
      simpa [Rat.zero_mkRat] using h0r
    refine ⟨0, le_refl 0, ?_, hmem, ?_⟩
    · have hne : sqlSelect refs sim query (mkRat (0 : Nat) 10) limit ≠ [] := by
        rw [Ne, sqlSelect_eq_nil_iff _ _ _ _ _ hlim]
        push_neg
        exact hmem
      simp only [get_similarity_go, mkConn]
      rw [if_neg (by simpa using hne)]
      norm_cast
    · intro j hj hKj
      omega
  | succ k ih =>
    by_cases hres : sqlSelect refs sim query (mkRat (k + 1 : Nat) 10) limit = []
    · obtain ⟨K, hKk, hgo, hex, hemp⟩ := ih
      refine ⟨K, by omega, ?_, hex, ?_⟩
      · simp only [get_similarity_go, mkConn]
        rw [if_pos (by simpa using hres)]
        exact hgo
      · intro j hj hKj r hr
        by_cases hjk : j ≤ k
        · exact hemp j hjk hKj r hr
        · have hjeq : j = k + 1 := by omega
          subst hjeq
          have := (sqlSelect_eq_nil_iff _ _ _ _ _ hlim).mp hres r hr
          exact lt_of_not_le this
    · refine ⟨k + 1, le_refl _, ?_, ?_, ?_⟩
      · simp only [get_similarity_go, mkConn]
        rw [if_neg (by simpa using hres)]
        norm_cast
      · have := mt (sqlSelect_eq_nil_iff refs sim query (mkRat (k + 1 : Nat) 10)
          limit hlim).mpr hres
        push_neg at this
        obtain ⟨r, hr, hle⟩ := this
        exact ⟨r, hr, not_lt.mp (by simpa using hle)⟩
      · intro j hj hKj
        omega

/-- C2: for every query with some match at a threshold ≥ 0, the adaptive
search (start 0.7, step 0.1) returns the result set of the highest band
`0.K` (`K ≤ 7`) at which any match exists; every strictly higher band holds
no match, so the loop returned at the first non-empty band. -/
theorem adaptive_search_highest_band (refs : List RefMol) (sim : String → String → ℚ)
    (fp mol_field table query : String) (limit : Option Nat)
    (hlim : limit ≠ some 0)
    (h0 : ∃ r ∈ refs, 0 ≤ sim query r.smi) :
    ∃ K : Nat, K ≤ 7 ∧
      get_similarity (mkConn refs sim) fp mol_field table query limit =
        .ok (some (sqlSelect refs sim query (mkRat K 10) limit)) ∧
      (∃ r ∈ refs, mkRat K 10 ≤ sim query r.smi) ∧
      (∀ j : Nat, j ≤ 7 → K < j → ∀ r ∈ refs, sim query r.smi < mkRat j 10) :=
  get_similarity_go_spec refs sim fp mol_field table query limit hlim h0 7

/-- C2 witness: the §8.7 scenario — the only reference molecule scores 0.55,
the bands 0.7 and 0.6 are empty, the search succeeds at 0.5 and returns the
0.55-similarity row. -/
theorem adaptive_search_highest_band_witness :
    ((some 1 : Option Nat) ≠ some 0) ∧
    (∃ r ∈ refs1, 0 ≤ sim055 "Q" r.smi) ∧
    (∃ K : Nat, K ≤ 7 ∧
      get_similarity (mkConn refs1 sim055) "morgan" "mol" "mols" "Q" (some 1) =
        .ok (some (sqlSelect refs1 sim055 "Q" (mkRat K 10) (some 1))) ∧
      (∃ r ∈ refs1, mkRat K 10 ≤ sim055 "Q" r.smi) ∧
      (∀ j : Nat, j ≤ 7 → K < j → ∀ r ∈ refs1, sim055 "Q" r.smi < mkRat j 10)) ∧
    (sqlSelect refs1 sim055 "Q" (mkRat 7 10) (some 1) = []) ∧
    (sqlSelect refs1 sim055 "Q" (mkRat 6 10) (some 1) = []) ∧
    (sqlSelect refs1 sim055 "Q" (mkRat 5 10) (some 1) = [row055]) ∧
    (get_similarity (mkConn refs1 sim055) "morgan" "mol" "mols" "Q" (some 1) =
      .ok (some [row055])) :=
  ⟨by decide, by decide,
    adaptive_search_highest_band refs1 sim055 "morgan" "mol" "mols" "Q" (some 1)
      (by decide) (by decide),
    by decide, by decide, by decide, by decide⟩

/-- On success, the worker's output rows carry exactly the input queries, in
batch order, as their augmentation component. -/
theorem calc_loop_ok_snd (con : Conn) (fp mol_field table : String) :
    ∀ (batch : List (String × String)) (out : List ResRow),
      calc_loop con fp mol_field table batch = .ok out →
      out.map (fun r => r.2) = batch := by
  intro batch
  induction batch with
  | nil =>
    intro out h
    simp only [calc_loop, Except.ok.injEq] at h
    subst h
    rfl
  | cons p rest ih =>
    obtain ⟨mol_id, smi⟩ := p
    intro out h
    simp only [calc_loop] at h
    cases hg : get_similarity con fp mol_field table smi (some 1) with
    | error e => rw [hg] at h; simp at h
    | ok o =>
      rw [hg] at h
      cases o with
      | none => simp at h
      | some rows =>
        cases rows with
        | nil => simp at h
        | cons r rs =>
          cases ht : calc_loop con fp mol_field table rest with
          | error e => rw [ht] at h; simp at h
          | ok tail =>
            rw [ht] at h
            simp only [Except.ok.injEq] at h
            subst h
            simp [ih tail ht]

/-- On success, each output row is zipped against its originating query:
the augmentation is that query's `(id, smiles)` pair and the row is the head
of the `limit=1` adapter call for that query. -/
theorem calc_loop_zip (con : Conn) (fp mol_field table : String) :
    ∀ (batch : List (String × String)) (out : List ResRow),
      calc_loop con fp mol_field table batch = .ok out →
      ∀ pr ∈ out.zip batch,
        pr.1.2 = pr.2 ∧
        ∃ rs, get_similarity con fp mol_field table pr.2.2 (some 1) =
          .ok (some (pr.1.1 :: rs)) := by
  intro batch
  induction batch with
  | nil =>
    intro out h
    simp only [calc_loop, Except.ok.injEq] at h
    subst h
    intro pr hpr
    simp at hpr
  | cons p rest ih =>
    obtain ⟨mol_id, smi⟩ := p
    intro out h
    simp only [calc_loop] at h
    cases hg : get_similarity con fp mol_field table smi (some 1) with
    | error e => rw [hg] at h; simp at h
    | ok o =>
      rw [hg] at h
      cases o with
      | none => simp at h
      | some rows =>
        cases rows with
        | nil => simp at h
        | cons r rs =>
          cases ht : calc_loop con fp mol_field table rest with
          | error e => rw [ht] at h; simp at h
          | ok tail =>
            rw [ht] at h
            simp only [Except.ok.injEq] at h
            subst h
            intro pr hpr
            rw [List.zip_cons_cons] at hpr
            rcases List.mem_cons.mp hpr with hpr | hpr
            · subst hpr
              exact ⟨rfl, rs, hg⟩
            · exact ih tail ht pr hpr

/-- The worker loop succeeds exactly when every query in the batch has a
match somewhere in the threshold backoff (and the engine never faults). -/
theorem calc_loop_isOk_iff (con : Conn) (fp mol_field table : String) :
    ∀ batch : List (String × String),
      (∃ out, calc_loop con fp mol_field table batch = .ok out) ↔
      ∀ p ∈ batch, ∃ r rs, get_similarity con fp mol_field table p.2 (some 1) =
        .ok (some (r :: rs)) := by
  intro batch
  induction batch with
  | nil =>
    constructor
    · intro _ p hp
      simp at hp
    · intro _
      exact ⟨[], rfl⟩
  | cons p rest ih =>
    obtain ⟨mol_id, smi⟩ := p
    constructor
    · rintro ⟨out, h⟩
      simp only [calc_loop] at h
      cases hg : get_similarity con fp mol_field table smi (some 1) with
      | error e => rw [hg] at h; simp at h
      | ok o =>
        rw [hg] at h
        cases o with
        | none => simp at h
        | some rows =>
          cases rows with
          | nil => simp at h
          | cons r rs =>
            cases ht : calc_loop con fp mol_field table rest with
            | error e => rw [ht] at h; simp at h
            | ok tail =>
              intro q hq
              rcases List.mem_cons.mp hq with hq | hq
              · subst hq
                exact ⟨r, rs, hg⟩
              · exact ih.mp ⟨tail, ht⟩ q hq
    · intro hall
      obtain ⟨r, rs, hg⟩ := hall (mol_id, smi) (List.mem_cons_self _ _)
      obtain ⟨tail, ht⟩ := ih.mpr (fun q hq => hall q (List.mem_cons_of_mem _ hq))
      refine ⟨(r, mol_id, smi) :: tail, ?_⟩
      simp only [calc_loop]
      rw [hg, ht]

/-- If every query before position `i` matches and query `i` has no match at
any threshold, the worker loop dies with TypeError at position `i`. -/
theorem calc_loop_typeError (con : Conn) (fp mol_field table : String) :
    ∀ (pre : List (String × String)) (mol_id smi : String)
      (post : List (String × String)),
      (∀ p ∈ pre, ∃ r rs, get_similarity con fp mol_field table p.2 (some 1) =
        .ok (some (r :: rs))) →
      get_similarity con fp mol_field table smi (some 1) = .ok none →
      calc_loop con fp mol_field table (pre ++ (mol_id, smi) :: post) =
        .error .typeError := by
  intro pre
  induction pre with
  | nil =>
    intro mol_id smi post _ hno
    simp only [List.nil_append, calc_loop]
    rw [hno]
  | cons p pre' ih =>
    intro mol_id smi post hpre hno
    obtain ⟨mid, qsmi⟩ := p
    obtain ⟨r, rs, hg⟩ := hpre (mid, qsmi) (List.mem_cons_self _ _)
    have hrest := ih mol_id smi post (fun q hq => hpre q (List.mem_cons_of_mem _ hq)) hno
    simp only [List.cons_append, calc_loop]
    rw [hg]
    simp only [List.append_eq]
    rw [hrest]

/-- If every query before position `i` matches and the adapter raises a
fatal error on query `i`, the worker loop re-raises exactly that error. -/
theorem calc_loop_fatal (con : Conn) (fp mol_field table : String) :
    ∀ (pre : List (String × String)) (mol_id smi : String)
      (post : List (String × String)) (e : PyError),
      (∀ p ∈ pre, ∃ r rs, get_similarity con fp mol_field table p.2 (some 1) =
        .ok (some (r :: rs))) →
      get_similarity con fp mol_field table smi (some 1) = .error e →
      calc_loop con fp mol_field table (pre ++ (mol_id, smi) :: post) = .error e := by
  intro pre
  induction pre with
  | nil =>
    intro mol_id smi post e _ herr
    simp only [List.nil_append, calc_loop]
    rw [herr]
  | cons p pre' ih =>
    intro mol_id smi post e hpre herr
    obtain ⟨mid, qsmi⟩ := p
    obtain ⟨r, rs, hg⟩ := hpre (mid, qsmi) (List.mem_cons_self _ _)
    have hrest := ih mol_id smi post e (fun q hq => hpre q (List.mem_cons_of_mem _ hq)) herr
    simp only [List.cons_append, calc_loop]
    rw [hg]
    simp only [List.append_eq]
    rw [hrest]

/-- C1 counterexample: on a reference collection with no molecule, neither
query matches at any threshold; the worker does not drop the queries and
emit an empty result — it raises TypeError (subscripting `None`) at the
first query, and the second query is never processed. -/
theorem no_match_not_silently_dropped :
    calc_sim_for_smiles opEmpty [("q1", "C"), ("q2", "CC")]
        "chembl.db" "morgan" "mol" "mols" = .error .typeError ∧
    calc_sim_for_smiles opEmpty [("q1", "C"), ("q2", "CC")]
        "chembl.db" "morgan" "mol" "mols" ≠ .ok [] :=
  ⟨by decide, by decide⟩

/-- C1 amended: when a query exhausts the threshold backoff without a match,
`get_similarity` returns `None` and the worker fails on `res[0]` with a
TypeError that aborts the whole batch at the first unmatched query; the
remaining queries of the batch are not processed or emitted. -/
theorem no_match_raises_typeError (opendb : EngineOpener)
    (db_name fp mol_field table : String) (pre post : List (String × String))
    (mol_id smi : String)
    (hpre : ∀ p ∈ pre, ∃ r rs,
      get_similarity (opendb db_name) fp mol_field table p.2 (some 1) =
        .ok (some (r :: rs)))
    (hno : get_similarity (opendb db_name) fp mol_field table smi (some 1) =
      .ok none) :
    calc_sim_for_smiles opendb (pre ++ (mol_id, smi) :: post)
        db_name fp mol_field table = .error .typeError :=
  calc_loop_typeError (opendb db_name) fp mol_field table pre mol_id smi post hpre hno

/-- C1 amended, witness: a single unmatched query aborts its batch with
TypeError. -/
theorem no_match_raises_typeError_witness :
    (get_similarity (opEmpty "chembl.db") "morgan" "mol" "mols" "C" (some 1) =
      .ok none) ∧
    calc_sim_for_smiles opEmpty ([] ++ ("q1", "C") :: [])
        "chembl.db" "morgan" "mol" "mols" = .error .typeError :=
  ⟨by decide,
    no_match_raises_typeError opEmpty "chembl.db" "morgan" "mol" "mols" [] [] "q1" "C"
      (by simp) (by decide)⟩

/-- C6: within a single worker's chunk, queries are processed in batch
order; the adapter is invoked with `limit=1`, and each query contributes
exactly one output row — the head row of its adapter call, augmented with
that query's id and smiles — aligned position by position with the batch. -/
theorem worker_batch_order_limit_one (opendb : EngineOpener)
    (db_name fp mol_field table : String) (batch : List (String × String))
    (out : List ResRow)
    (h : calc_sim_for_smiles opendb batch db_name fp mol_field table = .ok out) :
    out.length = batch.length ∧
    ∀ pr ∈ out.zip batch,
      pr.1.2 = pr.2 ∧
      ∃ rs, get_similarity (opendb db_name) fp mol_field table pr.2.2 (some 1) =
        .ok (some (pr.1.1 :: rs)) := by
  constructor
  · have := calc_loop_ok_snd (opendb db_name) fp mol_field table batch out h
    calc out.length = (out.map fun r => r.2).length := (List.length_map _ _).symm
    _ = batch.length := by rw [this]
  · exact calc_loop_zip (opendb db_name) fp mol_field table batch out h

/-- C6 witness: a two-query batch on the 0.55-similarity engine. -/
theorem worker_batch_order_limit_one_witness :
    (calc_sim_for_smiles op1 batch2 "chembl.db" "morgan" "mol" "mols" = .ok res2) ∧
    (res2.length = batch2.length ∧
      ∀ pr ∈ res2.zip batch2,
        pr.1.2 = pr.2 ∧
        ∃ rs, get_similarity conn1 "morgan" "mol" "mols" pr.2.2 (some 1) =
          .ok (some (pr.1.1 :: rs))) :=
  ⟨by decide,
    worker_batch_order_limit_one op1 "chembl.db" "morgan" "mol" "mols" batch2 res2
      (by decide)⟩

/-- C10: the worker's `res[0]` extraction is well-defined — and
`calc_sim_for_smiles` total and error-free — exactly under the precondition
that every query of the batch finds at least one match somewhere in the
threshold backoff. -/
theorem calc_ok_iff_all_matched (opendb : EngineOpener)
    (db_name fp mol_field table : String) (batch : List (String × String)) :
    (∃ out, calc_sim_for_smiles opendb batch db_name fp mol_field table = .ok out) ↔
    ∀ p ∈ batch, ∃ r rs,
      get_similarity (opendb db_name) fp mol_field table p.2 (some 1) =
        .ok (some (r :: rs)) :=
  calc_loop_isOk_iff (opendb db_name) fp mol_field table batch

theorem chunkedF_nil (n fuel : Nat) : chunkedF n fuel ([] : List α) = [] := by
  cases fuel with
  | zero => rfl
  | succ f => simp [chunkedF, take]

/-- With a positive chunk size and enough fuel, chunking loses and
duplicates nothing: the chunks concatenate back to the original list. -/
theorem chunkedF_flatten (n : Nat) (hn : 1 ≤ n) :
    ∀ (fuel : Nat) (l : List α), l.length ≤ fuel →
      (chunkedF n fuel l).flatten = l := by
  intro fuel
  induction fuel with
  | zero =>
    intro l hl
    have hnil : l = [] := List.length_eq_zero.mp (Nat.le_zero.mp hl)
    subst hnil
    rfl
  | succ fuel ih =>
    intro l hl
    by_cases hemp : (take n l).isEmpty = true
    · have htake : take n l = [] := List.isEmpty_iff.mp hemp
      rcases List.take_eq_nil_iff.mp htake with h0 | h0
      · omega
      · subst h0
        simp [chunkedF, take]
    · have hlne : l ≠ [] := by
        intro hl0
        subst hl0
        simp [take] at hemp
      have hlen1 : 1 ≤ l.length := List.length_pos.mpr hlne
      have hdrop : (l.drop n).length ≤ fuel := by
        rw [List.length_drop]
        omega
      rw [chunkedF, if_neg hemp, List.flatten_cons, ih (l.drop n) hdrop, take]
      exact List.take_append_drop n l

/-- Chunk `i` is exactly the slice of the input at positions
`[i*n, (i+1)*n)`. -/
theorem chunkedF_getD (n : Nat) (hn : 1 ≤ n) :
    ∀ (fuel : Nat) (l : List α) (i : Nat), l.length ≤ fuel →
      i < (chunkedF n fuel l).length →
      (chunkedF n fuel l).getD i [] = (l.drop (i * n)).take n := by
  intro fuel
  induction fuel with
  | zero =>
    intro l i hl hi
    have hnil : l = [] := List.length_eq_zero.mp (Nat.le_zero.mp hl)
    subst hnil
    simp [chunkedF] at hi
  | succ fuel ih =>
    intro l i hl hi
    by_cases hemp : (take n l).isEmpty = true
    · rw [chunkedF, if_pos hemp] at hi
      simp at hi
    · have hlne : l ≠ [] := by
        intro hl0
        subst hl0
        simp [take] at hemp
      have hlen1 : 1 ≤ l.length := List.length_pos.mpr hlne
      have hdrop : (l.drop n).length ≤ fuel := by
        rw [List.length_drop]
        omega
      rw [chunkedF, if_neg hemp] at hi ⊢
      cases i with
      | zero => simp [take]
      | succ i =>
        rw [List.getD_cons_succ]
        rw [List.length_cons] at hi
        have hi' : i < (chunkedF n fuel (l.drop n)).length := Nat.lt_of_succ_lt_succ hi
        have harith : n + i * n = (i + 1) * n := by ring
        rw [ih (l.drop n) i hdrop hi', List.drop_drop, harith]

/-- Every chunk except possibly the last has size exactly `n`. -/
theorem chunkedF_size (n : Nat) (hn : 1 ≤ n) :
    ∀ (fuel : Nat) (l : List α) (i : Nat), l.length ≤ fuel →
      i + 1 < (chunkedF n fuel l).length →
      ((chunkedF n fuel l).getD i []).length = n := by
  intro fuel
  induction fuel with
  | zero =>
    intro l i hl hi
    have hnil : l = [] := List.length_eq_zero.mp (Nat.le_zero.mp hl)
    subst hnil
    simp [chunkedF] at hi
  | succ fuel ih =>
    intro l i hl hi
    by_cases hemp : (take n l).isEmpty = true
    · rw [chunkedF, if_pos hemp] at hi
      simp at hi
    · have hlne : l ≠ [] := by
        intro hl0
        subst hl0
        simp [take] at hemp
      have hlen1 : 1 ≤ l.length := List.length_pos.mpr hlne
      have hdrop : (l.drop n).length ≤ fuel := by
        rw [List.length_drop]
        omega
      rw [chunkedF, if_neg hemp] at hi ⊢
      cases i with
      | zero =>
        rw [List.length_cons] at hi
        have htail : chunkedF n fuel (l.drop n) ≠ [] := by
          intro h0
          rw [h0] at hi
          simp at hi
        have hdropne : l.drop n ≠ [] := by
          intro h0
          rw [h0] at htail
          exact htail (chunkedF_nil n fuel)
        have hlt : n < l.length := by
          by_contra hcon
          exact hdropne (List.drop_eq_nil_iff.mpr (le_of_not_lt hcon))
        rw [List.getD_cons_zero, take, List.length_take]
        exact min_eq_left (Nat.le_of_lt hlt)
      | succ i =>
        rw [List.getD_cons_succ]
        rw [List.length_cons] at hi
        exact ih (l.drop n) i hdrop (Nat.lt_of_succ_lt_succ hi)

theorem chunked_flatten (n : Nat) (hn : 1 ≤ n) (l : List α) :
    (chunked n l).flatten = l :=
  chunkedF_flatten n hn l.length l (le_refl _)

theorem chunked_getD (n : Nat) (hn : 1 ≤ n) (l : List α) (i : Nat)
    (hi : i < (chunked n l).length) :
    (chunked n l).getD i [] = (l.drop (i * n)).take n :=
  chunkedF_getD n hn l.length l i (le_refl _) hi

theorem chunked_size (n : Nat) (hn : 1 ≤ n) (l : List α) (i : Nat)
    (hi : i + 1 < (chunked n l).length) :
    ((chunked n l).getD i []).length = n :=
  chunkedF_size n hn l.length l i (le_refl _) hi

theorem cpu_type_pos (cpu_count : Nat) (x : Int) : 1 ≤ cpu_type cpu_count x := by
  unfold cpu_type
  omega

/-- On overall success, the aggregated output carries the chunk inputs,
concatenated in submission order. -/
theorem pool_map_sum_ok_flatten
    (f : List (String × String) → Except PyError (List ResRow))
    (hf : ∀ c out, f c = .ok out → out.map (fun r => r.2) = c) :
    ∀ (cs : List (List (String × String))) (out : List ResRow),
      pool_map_sum f cs = .ok out → out.map (fun r => r.2) = cs.flatten := by
  intro cs
  induction cs with
  | nil =>
    intro out h
    simp only [pool_map_sum, Except.ok.injEq] at h
    subst h
    rfl
  | cons c cs ih =>
    intro out h
    simp only [pool_map_sum] at h
    cases hc : f c with
    | error e => rw [hc] at h; simp at h
    | ok r =>
      rw [hc] at h
      cases hp : pool_map_sum f cs with
      | error e => rw [hp] at h; simp at h
      | ok rest =>
        rw [hp] at h
        simp only [Except.ok.injEq] at h
        subst h
        rw [List.map_append, hf c r hc, ih rest hp, List.flatten_cons]

/-- On overall success, every chunk's worker succeeded. -/
theorem pool_map_sum_ok_chunk
    (f : List (String × String) → Except PyError (List ResRow)) :
    ∀ (cs : List (List (String × String))) (out : List ResRow),
      pool_map_sum f cs = .ok out → ∀ c ∈ cs, ∃ o, f c = .ok o := by
  intro cs
  induction cs with
  | nil =>
    intro out h c hc
    simp at hc
  | cons c cs ih =>
    intro out h c' hc'
    simp only [pool_map_sum] at h
    cases hc : f c with
    | error e => rw [hc] at h; simp at h
    | ok r =>
      rw [hc] at h
      cases hp : pool_map_sum f cs with
      | error e => rw [hp] at h; simp at h
      | ok rest =>
        rcases List.mem_cons.mp hc' with rfl | hmem
        · exact ⟨r, hc⟩
        · exact ih rest hp c' hmem

/-- The first failed chunk (in submission order) aborts the aggregation
with exactly its error. -/
theorem pool_map_sum_fatal
    (f : List (String × String) → Except PyError (List ResRow)) :
    ∀ (pre : List (List (String × String))) (c : List (String × String))
      (post : List (List (String × String))) (e : PyError),
      (∀ c' ∈ pre, ∃ o, f c' = .ok o) → f c = .error e →
      pool_map_sum f (pre ++ c :: post) = .error e := by
  intro pre
  induction pre with
  | nil =>
    intro c post e _ herr
    simp only [List.nil_append, pool_map_sum]
    rw [herr]
  | cons c0 pre' ih =>
    intro c post e hpre herr
    obtain ⟨o, ho⟩ := hpre c0 (List.mem_cons_self _ _)
    have hrest := ih c post e (fun q hq => hpre q (List.mem_cons_of_mem _ hq)) herr
    simp only [List.cons_append, pool_map_sum]
    rw [ho]
    simp only [List.append_eq]
    rw [hrest]

/-- On success, the flattened outputs of `main` carry the query pairs in the
original input order. -/
theorem main_run_ok_snd (opendb : EngineOpener) (cpu_count : Nat) (cfg : Config)
    (queries : List (String × String)) (out : List ResRow)
    (h : main_run opendb cpu_count cfg queries = .ok out) :
    out.map (fun r => r.2) = queries := by
  have h1 := pool_map_sum_ok_flatten
    (fun chunk =>
      calc_sim_for_smiles opendb chunk cfg.input_db cfg.fp cfg.mol_field cfg.table)
    (fun c o hc => calc_loop_ok_snd (opendb cfg.input_db) cfg.fp cfg.mol_field
      cfg.table c o hc)
    (chunked (cpu_type cpu_count cfg.ncpu) queries) out h
  rw [h1, chunked_flatten _ (cpu_type_pos _ _)]

/-- On success, every input query found a match through the backoff. -/
theorem main_run_ok_matched (opendb : EngineOpener) (cpu_count : Nat) (cfg : Config)
    (queries : List (String × String)) (out : List ResRow)
    (h : main_run opendb cpu_count cfg queries = .ok out) :
    ∀ p ∈ queries, ∃ r rs,
      get_similarity (opendb cfg.input_db) cfg.fp cfg.mol_field cfg.table p.2
        (some 1) = .ok (some (r :: rs)) := by
  intro p hp
  have hq : p ∈ (chunked (cpu_type cpu_count cfg.ncpu) queries).flatten := by
    rw [chunked_flatten _ (cpu_type_pos _ _)]
    exact hp
  obtain ⟨c, hc, hpc⟩ := List.mem_flatten.mp hq
  obtain ⟨o, ho⟩ := pool_map_sum_ok_chunk _
    (chunked (cpu_type cpu_count cfg.ncpu) queries) out h c hc
  exact (calc_loop_isOk_iff (opendb cfg.input_db) cfg.fp cfg.mol_field cfg.table
    c).mp ⟨o, ho⟩ p hpc

/-- C3 counterexample: a 4-query run with `ncpu=2` (two chunks through the
pool).  The flattened output equals the original query order exactly —
`ProcessPoolExecutor.map` yields chunk results in input order, so no
reordering is possible, contradicting the claimed completion-order
aggregation. -/
theorem dispatcher_order_concrete :
    main_run op1 4 cfg1 qs4 = .ok res4 ∧
    res4.map (fun r => r.2) = qs4 :=
  ⟨by decide, by decide⟩

/-- C3 amended: the dispatcher concatenates chunk results in submission
(chunk) order — `ProcessPoolExecutor.map` yields results in the order of its
input iterable — so whenever the run succeeds, the flattened output is in
the original query order. -/
theorem output_preserves_query_order (opendb : EngineOpener) (cpu_count : Nat)
    (cfg : Config) (queries : List (String × String)) (out : List ResRow)
    (h : main_run opendb cpu_count cfg queries = .ok out) :
    out.map (fun r => r.2) = queries :=
  main_run_ok_snd opendb cpu_count cfg queries out h

/-- C3 amended, witness: a 3-query run over two chunks keeps the input
order. -/
theorem output_preserves_query_order_witness :
    main_run op1 2 cfg1 qs3 = .ok res3 ∧
    res3.map (fun r => r.2) = qs3 :=
  ⟨by decide, output_preserves_query_order op1 2 cfg1 qs3 res3 (by decide)⟩

/-- C4: the configured `threshold` option is parsed but never used — two
runs differing only in the `threshold` option produce identical results on
every input (the adaptive loop's starting threshold is hardcoded to 0.7). -/
theorem threshold_option_unused (opendb : EngineOpener) (cpu_count : Nat)
    (idb ismi outp tb mf fpk : String) (t1 t2 : ℚ) (lim : Option Int) (nc : Int)
    (queries : List (String × String)) :
    main_run opendb cpu_count ⟨idb, ismi, outp, tb, mf, fpk, t1, lim, nc⟩ queries =
    main_run opendb cpu_count ⟨idb, ismi, outp, tb, mf, fpk, t2, lim, nc⟩ queries :=
  rfl

/-- C9: the configured `limit` option is parsed but never used — the worker
always calls the similarity query with `limit=1`, so two runs differing only
in the `limit` option produce identical results on every input. -/
theorem limit_option_unused (opendb : EngineOpener) (cpu_count : Nat)
    (idb ismi outp tb mf fpk : String) (t : ℚ) (lim1 lim2 : Option Int) (nc : Int)
    (queries : List (String × String)) :
    main_run opendb cpu_count ⟨idb, ismi, outp, tb, mf, fpk, t, lim1, nc⟩ queries =
    main_run opendb cpu_count ⟨idb, ismi, outp, tb, mf, fpk, t, lim2, nc⟩ queries :=
  rfl

/-- C5: for worker count `W ≥ 1`, the dispatcher splits the query sequence
into consecutive chunks — chunk `i` holds exactly the queries at positions
`[i*W, (i+1)*W)`, every chunk has size at most `W`, every non-last chunk has
size exactly `W`, and the chunks concatenate back to the input, so each
query occurs exactly once. -/
theorem chunk_partition_spec (W : Nat) (l : List α) (hW : 1 ≤ W) :
    (chunked W l).flatten = l ∧
    (∀ i, i < (chunked W l).length →
      (chunked W l).getD i [] = (l.drop (i * W)).take W) ∧
    (∀ i, i < (chunked W l).length → ((chunked W l).getD i []).length ≤ W) ∧
    (∀ i, i + 1 < (chunked W l).length → ((chunked W l).getD i []).length = W) := by
  refine ⟨chunked_flatten W hW l, fun i hi => chunked_getD W hW l i hi, ?_,
    fun i hi => chunked_size W hW l i hi⟩
  intro i hi
  rw [chunked_getD W hW l i hi]
  exact List.length_take_le _ _

/-- C5 witness: five queries in chunks of two: `[[10,20],[30,40],[50]]`. -/
theorem chunk_partition_spec_witness :
    (1 ≤ 2) ∧
    ((chunked 2 [10, 20, 30, 40, 50]).flatten = [10, 20, 30, 40, 50] ∧
     (∀ i, i < (chunked 2 [10, 20, 30, 40, 50]).length →
       (chunked 2 [10, 20, 30, 40, 50]).getD i [] =
         ([10, 20, 30, 40, 50].drop (i * 2)).take 2) ∧
     (∀ i, i < (chunked 2 [10, 20, 30, 40, 50]).length →
       ((chunked 2 [10, 20, 30, 40, 50]).getD i []).length ≤ 2) ∧
     (∀ i, i + 1 < (chunked 2 [10, 20, 30, 40, 50]).length →
       ((chunked 2 [10, 20, 30, 40, 50]).getD i []).length = 2)) :=
  ⟨by decide, chunk_partition_spec 2 [10, 20, 30, 40, 50] (by decide)⟩

/-- C7: when the adapter raises a fatal engine/schema error on some query of
some chunk (all earlier chunks and all earlier queries of that chunk having
succeeded), nothing catches it: the worker re-raises it, the pool aggregation
re-raises it, and the whole run aborts with exactly that error — no result
rows are produced (the output loop only runs after `sum(p.map(...))` has
collected every chunk). -/
theorem fatal_error_aborts_run (opendb : EngineOpener) (cpu_count : Nat)
    (cfg : Config) (queries : List (String × String))
    (pre post : List (List (String × String))) (c : List (String × String))
    (qpre qpost : List (String × String)) (mol_id smi : String) (e : PyError)
    (he : e = .engineUnavailable ∨ e = .schemaError)
    (hchunks : chunked (cpu_type cpu_count cfg.ncpu) queries = pre ++ c :: post)
    (hpre : ∀ c' ∈ pre, ∃ o,
      calc_sim_for_smiles opendb c' cfg.input_db cfg.fp cfg.mol_field cfg.table =
        .ok o)
    (hc : c = qpre ++ (mol_id, smi) :: qpost)
    (hqpre : ∀ p ∈ qpre, ∃ r rs,
      get_similarity (opendb cfg.input_db) cfg.fp cfg.mol_field cfg.table p.2
        (some 1) = .ok (some (r :: rs)))
    (herr : get_similarity (opendb cfg.input_db) cfg.fp cfg.mol_field cfg.table smi
      (some 1) = .error e) :
    main_run opendb cpu_count cfg queries = .error e := by
  have hcerr : calc_sim_for_smiles opendb c cfg.input_db cfg.fp cfg.mol_field
      cfg.table = .error e := by
    rw [hc]
    exact calc_loop_fatal (opendb cfg.input_db) cfg.fp cfg.mol_field cfg.table
      qpre mol_id smi qpost e hqpre herr
  show pool_map_sum
    (fun chunk =>
      calc_sim_for_smiles opendb chunk cfg.input_db cfg.fp cfg.mol_field cfg.table)
    (chunked (cpu_type cpu_count cfg.ncpu) queries) = .error e
  rw [hchunks]
  exact pool_map_sum_fatal _ pre c post e hpre hcerr

/-- C7 witness: a connection whose every SELECT raises `EngineUnavailable`
makes the whole single-query run abort with that error. -/
theorem fatal_error_aborts_run_witness :
    (chunked (cpu_type 1 cfgE.ncpu) [("a", "x")] = [] ++ [("a", "x")] :: []) ∧
    (get_similarity (opErr cfgE.input_db) cfgE.fp cfgE.mol_field cfgE.table "x"
      (some 1) = .error .engineUnavailable) ∧
    main_run opErr 1 cfgE [("a", "x")] = .error .engineUnavailable :=
  ⟨by decide, by decide,
    fatal_error_aborts_run opErr 1 cfgE [("a", "x")] [] [] [("a", "x")] [] []
      "a" "x" .engineUnavailable (Or.inl rfl) (by decide) (by simp) (by decide)
      (by simp) (by decide)⟩

/-- C8: on a run that completes without a fatal error, the number of emitted
rows is at most the number of input queries, and it equals the input count
exactly when every query finds a match at or above the floor threshold (on
this code path success forces both sides: an unmatched query would have
aborted the run). -/
theorem output_cardinality (opendb : EngineOpener) (cpu_count : Nat) (cfg : Config)
    (queries : List (String × String)) (out : List ResRow)
    (h : main_run opendb cpu_count cfg queries = .ok out) :
    out.length ≤ queries.length ∧
    (out.length = queries.length ↔
      ∀ p ∈ queries, ∃ r rs,
        get_similarity (opendb cfg.input_db) cfg.fp cfg.mol_field cfg.table p.2
          (some 1) = .ok (some (r :: rs))) := by
  have hmap := main_run_ok_snd opendb cpu_count cfg queries out h
  have hlen : out.length = queries.length := by
    calc out.length = (out.map fun r => r.2).length := (List.length_map _ _).symm
    _ = queries.length := by rw [hmap]
  exact ⟨le_of_eq hlen,
    fun _ => main_run_ok_matched opendb cpu_count cfg queries out h,
    fun _ => hlen⟩

/-- C8 witness: four queries, four rows, every query matched. -/
theorem output_cardinality_witness :
    (main_run op1 4 cfg1 qs4 = .ok res4) ∧
    (res4.length ≤ qs4.length ∧
      (res4.length = qs4.length ↔
        ∀ p ∈ qs4, ∃ r rs,
          get_similarity (op1 cfg1.input_db) cfg1.fp cfg1.mol_field cfg1.table p.2
            (some 1) = .ok (some (r :: rs)))) :=
  ⟨by decide, output_cardinality op1 4 cfg1 qs4 res4 (by decide)⟩

end ChemSearch
